import Mathlib

/-!
Shallow embedding of `src/services/contractService.ts` from eth-watcher-ts.

The embedded operations:
* `getStatesFromSourceCode` — the storage-slot resolver: filters the parsed
  source tree to contract definitions, and maps each contract's state
  variable declarations to `State` records via `states.map((item, slot) => ...)`,
  concatenating the per-contract lists.
* `getEventsFromABI` — filters ABI entries of kind "event" and extracts names.
* `addContracts` — the onboarding orchestrator loop with per-address
  try/catch, collecting `success`/`fail`/`contractIds` and dispatching the
  backfill service once when `contractIds` is non-empty.
* `closeOutcome` — the backfill child process close handler: resolve on exit
  code 0, reject with the code otherwise.

External collaborators (etherscan fetches, repositories) are parameters of
the orchestrator (`Env`); their state (event registry, contract store) is
threaded explicitly (`World`).

`structureToSignatureType` comes from `./dataTypeParser`, which is not part
of the sources at hand; it is modelled from the spec (see its doc comment).
-/

namespace EthWatcher

/-- Solidity type expressions as produced by the solidity parser
(`typeName` of a variable declaration / struct member). -/
inductive SolType where
  | elementary (name : String)
  | userDefined (name : String)
  | array (base : SolType) (length : Option Nat)
  | mapping (key value : SolType)
deriving DecidableEq, Repr

/-- One declared variable inside a `StateVariableDeclaration` node.
The parser records a `isDeclaredConst` marker for `constant` variables. -/
structure VarDecl where
  name : String
  typeName : SolType
  isDeclaredConst : Bool
deriving DecidableEq, Repr

/-- A `StateVariableDeclaration` AST node; the source reads `item.variables[0]`
(`vars` embeds the JS field `variables`, a Lean keyword). -/
structure StateVariableDeclaration where
  vars : List VarDecl
deriving DecidableEq, Repr

/-- A `StructDefinition` AST node: name and ordered members. -/
structure StructDefinition where
  name : String
  members : List (String × SolType)
deriving DecidableEq, Repr

/-- Sub-nodes of a contract definition; the source filters on `n.type`. -/
inductive SubNode where
  | stateVariableDeclaration (d : StateVariableDeclaration)
  | structDefinition (s : StructDefinition)
  | other
deriving DecidableEq, Repr

/-- A `ContractDefinition` AST node. -/
structure ContractDefinition where
  subNodes : List SubNode
deriving DecidableEq, Repr

/-- Top-level AST nodes; the source filters `item.type === 'ContractDefinition'`. -/
inductive ASTNode where
  | contractDefinition (c : ContractDefinition)
  | other
deriving DecidableEq, Repr

/-- The parsed source document (`parser.parse(sourceCode).children`). -/
structure SourceDoc where
  children : List ASTNode
deriving DecidableEq, Repr

/-- Resolver output record: the source builds `{ slot, type, variable }`.
`vname` embeds the JS field `variable` (a Lean keyword). It is an `Option`
because the source reads `item.variables[0]?.name`. -/
structure State where
  slot : Nat
  type : String
  vname : Option String
deriving DecidableEq, Repr

/-- Failures of type-signature resolution (thrown by the signature builder). -/
inductive ResolveError where
  | cyclicStruct
  | unknownType (name : String)
deriving DecidableEq, Repr

/-- `n.type == 'StateVariableDeclaration'` filter, as a `filterMap` selector. -/
def stateVarOf : SubNode → Option StateVariableDeclaration
  | .stateVariableDeclaration d => some d
  | _ => none

/-- `n.type == 'StructDefinition'` filter, as a `filterMap` selector. -/
def structOf : SubNode → Option StructDefinition
  | .structDefinition s => some s
  | _ => none

/-- `item.type === 'ContractDefinition'` filter, as a `filterMap` selector. -/
def contractDefOf : ASTNode → Option ContractDefinition
  | .contractDefinition c => some c
  | _ => none

/-- Struct names referenced anywhere inside a type expression. -/
def refsIn : SolType → List String
  | .elementary _ => []
  | .userDefined n => [n]
  | .array b _ => refsIn b
  | .mapping k v => refsIn k ++ refsIn v

/-- Member types of the struct named `n` in the catalog (empty if absent). -/
def structFields (structs : List StructDefinition) (n : String) : List SolType :=
  match structs.find? (fun sd => sd.name == n) with
  | none => []
  | some sd => sd.members.map Prod.snd

/-- Struct names directly referenced by the fields of struct `n`. -/
def succsOf (structs : List StructDefinition) (n : String) : List String :=
  (structFields structs n).flatMap refsIn

/-- One expansion step of the set of struct names reachable by field
references: add all successors not yet present. -/
def expandNames (structs : List StructDefinition) (acc : List String) : List String :=
  acc ++ ((acc.flatMap (succsOf structs)).filter (fun m => ¬ acc.contains m))

/-- Iterated expansion (depth-first/breadth-first closure, fuelled). -/
def reachNames (structs : List StructDefinition) : Nat → List String → List String
  | 0, acc => acc
  | fuel + 1, acc => reachNames structs fuel (expandNames structs acc)

/-- A struct contains itself, directly or transitively through its fields. -/
def cyclicStructB (structs : List StructDefinition) (sd : StructDefinition) : Bool :=
  (reachNames structs structs.length (succsOf structs sd.name)).contains sd.name

/-- The catalog contains some cyclic struct. -/
def cyclicCatalog (structs : List StructDefinition) : Bool :=
  structs.any (cyclicStructB structs)

/-- Combine a member's signature with the already-collected tail of member
signatures (first error wins, left to right). -/
def collectSig (s : Except ResolveError String)
    (acc : Except ResolveError (List String)) : Except ResolveError (List String) :=
  match s, acc with
  | .error e, _ => .error e
  | .ok _, .error e => .error e
  | .ok s, .ok ss => .ok (s :: ss)

/-- Canonical signature of a type expression, expanding struct references
through the catalog. The recursion is fuelled (structurally on `fuel`, one
unit per tree layer or struct expansion) so that the definition computes;
exhaustion reports a cycle, which is unreachable for the generous fuel used
by `structureToSignatureType` after its acyclicity pre-check. -/
def sigOf (structs : List StructDefinition) : Nat → SolType → Except ResolveError String
  | 0, _ => .error .cyclicStruct
  | fuel + 1, t =>
    match t with
    | .elementary n => .ok n
    | .array b none =>
      match sigOf structs fuel b with
      | .error e => .error e
      | .ok s => .ok (s ++ "[]")
    | .array b (some len) =>
      match sigOf structs fuel b with
      | .error e => .error e
      | .ok s => .ok (s ++ "[" ++ toString len ++ "]")
    | .mapping k v =>
      match sigOf structs fuel k with
      | .error e => .error e
      | .ok ks =>
        match sigOf structs fuel v with
        | .error e => .error e
        | .ok vs => .ok ("mapping(" ++ ks ++ "=>" ++ vs ++ ")")
    | .userDefined n =>
      match structs.find? (fun sd => sd.name == n) with
      | none => .error (.unknownType n)
      | some sd =>
        match (sd.members.map Prod.snd).foldr
            (fun m acc => collectSig (sigOf structs fuel m) acc) (.ok []) with
        | .error e => .error e
        | .ok sigs => .ok ("(" ++ String.intercalate "," sigs ++ ")")

/-- Structural size of a type expression, for the fuel budget. -/
def typeSize : SolType → Nat
  | .elementary _ => 1
  | .userDefined _ => 1
  | .array b _ => 1 + typeSize b
  | .mapping k v => 1 + typeSize k + typeSize v

/-- Fuel budget covering the whole catalog once over: on an acyclic catalog
every expansion path visits each struct at most once, so nesting depth is
bounded by the sum of all member sizes plus the size of the type itself. -/
def catalogFuel (structs : List StructDefinition) (t : SolType) : Nat :=
  (typeSize t + 1) *
    (1 + (structs.map (fun sd => 1 + ((sd.members.map Prod.snd).map typeSize).sum)).sum)

/-- Modelled from the spec: `structureToSignatureType` is imported from
`./dataTypeParser`, which is not among the sources at hand. Per the spec it
builds a canonical signature string by walking the type tree (a mapping
renders as `mapping(K=>V)`, a struct as an ordered tuple of its field
signatures), rejects cyclic struct containment with `CyclicStruct` via
depth-first cycle detection over the struct field graph once the whole
catalog is assembled (before any layout), and fails with `UnknownType` when
a reference resolves to neither an elementary type nor a registered struct.
The source calls it as
`structureToSignatureType(item.variables[0]?.name, item.variables[0]?.typeName, structs)`;
the declared name does not influence the type signature. -/
def structureToSignatureType (name : Option String) (typeName : Option SolType)
    (structs : List StructDefinition) : Except ResolveError String :=
  if cyclicCatalog structs then .error .cyclicStruct
  else
    match name, typeName with
    | _, none => .error (.unknownType "undefined")
    | _, some t => sigOf structs (catalogFuel structs t) t

/-- The body of `states.map((item, slot) => { ... })` in
`getStatesFromSourceCode`, as an indexed traversal: `slot` is the index of
the declaration in the contract's state variable list, starting at `k`
(the call site uses `k = 0`). The first thrown resolution error aborts. -/
def mapStates (structs : List StructDefinition) (k : Nat) :
    List StateVariableDeclaration → Except ResolveError (List State)
  | [] => .ok []
  | item :: rest =>
    match structureToSignatureType ((item.vars.head?).map VarDecl.name)
        ((item.vars.head?).map VarDecl.typeName) structs with
    | .error e => .error e
    | .ok type =>
      match mapStates structs (k + 1) rest with
      | .error e => .error e
      | .ok tail => .ok (⟨k, type, (item.vars.head?).map VarDecl.name⟩ :: tail)

/-- One iteration of the `for (const contractDefinition of contractDefinitions)`
loop body: filter the state variable declarations and struct definitions
from `subNodes` and map the states to slot records. -/
def resolveContract (c : ContractDefinition) : Except ResolveError (List State) :=
  mapStates (c.subNodes.filterMap structOf) 0 (c.subNodes.filterMap stateVarOf)

/-- The loop of `getStatesFromSourceCode`, concatenating per-contract lists
(`list = list.concat(states.map(...))`); a thrown error propagates. -/
def getStatesAux : List ContractDefinition → Except ResolveError (List State)
  | [] => .ok []
  | c :: cs =>
    match resolveContract c with
    | .error e => .error e
    | .ok m =>
      match getStatesAux cs with
      | .error e => .error e
      | .ok rest => .ok (m ++ rest)

/-- `getStatesFromSourceCode`: parse (given here as the parsed document),
filter the top-level children to contract definitions, and concatenate the
per-contract slot records. -/
def getStatesFromSourceCode (doc : SourceDoc) : Except ResolveError (List State) :=
  getStatesAux (doc.children.filterMap contractDefOf)

/-- One ABI entry (`{ type, name }` are the fields the source reads). -/
structure ABIEntry where
  type : String
  name : String
deriving DecidableEq, Repr

/-- `getEventsFromABI`: `if (!abi) return []`, then filter entries of kind
`event` and map to names. A missing ABI is `none` (the etherscan fetch
yields `null` when the contract has no ABI). -/
def getEventsFromABI (abi : Option (List ABIEntry)) : List String :=
  match abi with
  | none => []
  | some entries => (entries.filter (fun item => item.type == "event")).map ABIEntry.name

/-- The `close` handler of `runBackfillService`'s child process:
`code === 0` resolves the promise with the code, anything else rejects with
the code. `none` stands for Node's `null` exit code (signal termination). -/
def closeOutcome (code : Option Int) : Except (Option Int) (Option Int) :=
  if code = some 0 then .ok code else .error code

/-- What `getContractDataFromEtherscan` returns: `{ name, abi, sourceCode }`
(the source code given here already parsed). -/
structure EtherscanData where
  name : String
  abi : Option (List ABIEntry)
  sourceCode : SourceDoc
deriving DecidableEq

/-- The record handed to `contractRepository.add` in `addContracts`. -/
structure ContractRecord where
  address : String
  startingBlock : Nat
  name : String
  abi : Option (List ABIEntry)
  events : List Nat
deriving DecidableEq

/-- State of the external stores: the event registry rows
(`(eventId, name)` pairs) and the contract rows. -/
structure World where
  events : List (Nat × String)
  contracts : List ContractRecord
deriving DecidableEq

/-- The external collaborators of `addContracts`: the etherscan fetches and
the repositories. Each may throw (`Except.error`); the repository calls
return the updated store together with the generated id. -/
structure Env where
  fetchData : String → String → Except String EtherscanData
  fetchBlock : String → String → Except String Nat
  addEvent : List (Nat × String) → String → Except String (List (Nat × String) × Nat)
  addContract : List ContractRecord → ContractRecord → Except String (List ContractRecord × Nat)

/-- The `for (const name of eventNames)` loop: each `eventRepository.add`
persists immediately; a thrown error aborts the loop but the rows already
written stay written. Returns the registry after the loop and either the
collected event ids or the error. -/
def addEventsLoop (env : Env) (reg : List (Nat × String)) :
    List String → List (Nat × String) × Except String (List Nat)
  | [] => (reg, .ok [])
  | n :: ns =>
    match env.addEvent reg n with
    | .error e => (reg, .error e)
    | .ok (reg', id) =>
      match addEventsLoop env reg' ns with
      | (reg'', .error e) => (reg'', .error e)
      | (reg'', .ok ids) => (reg'', .ok (id :: ids))

/-- The body of the per-address `try` block in `addContracts`: fetch data
and starting block, resolve states, collect event names, persist events,
persist the contract. Returns the world as mutated so far and `some
contractId` on success, `none` when any stage threw (the `catch` branch). -/
def processAddress (env : Env) (apiKey : String) (w : World) (address : String) :
    World × Option Nat :=
  match env.fetchData apiKey address with
  | .error _ => (w, none)
  | .ok data =>
    match env.fetchBlock apiKey address with
    | .error _ => (w, none)
    | .ok startingBlock =>
      match getStatesFromSourceCode data.sourceCode with
      | .error _ => (w, none)
      | .ok _stateObjects =>
        let eventNames := getEventsFromABI data.abi
        match addEventsLoop env w.events eventNames with
        | (reg', .error _) => (⟨reg', w.contracts⟩, none)
        | (reg', .ok eventIds) =>
          match env.addContract w.contracts
              ⟨address, startingBlock, data.name, data.abi, eventIds⟩ with
          | .error _ => (⟨reg', w.contracts⟩, none)
          | .ok (store', contractId) => (⟨reg', store'⟩, some contractId)

/-- The `for (const address of addresses)` loop of `addContracts`:
per-address try/catch, pushing to `success`/`fail`/`contractIds` in order.
Returns `(world, success, fail, contractIds)`. -/
def addContractsAux (env : Env) (apiKey : String) (w : World) :
    List String → World × List String × List String × List Nat
  | [] => (w, [], [], [])
  | a :: rest =>
    match processAddress env apiKey w a with
    | (w', some cid) =>
      let (w'', s, f, ids) := addContractsAux env apiKey w' rest
      (w'', a :: s, f, cid :: ids)
    | (w', none) =>
      let (w'', s, f, ids) := addContractsAux env apiKey w' rest
      (w'', s, a :: f, ids)

/-- Result of one `addContracts` call. `dispatched` records the
`runBackfillService` invocations (each with its `contractIds` argument). -/
structure BatchResult where
  success : List String
  fail : List String
  contractIds : List Nat
  dispatched : List (List Nat)
  world : World
deriving DecidableEq

/-- `addContracts`: run the per-address loop from the initial store state
`w0`, then `if (contractIds && contractIds.length) runBackfillService(contractIds)`,
and return `{ success, fail }` (plus, in this model, the ids, the dispatch
record and the final store state). -/
def addContracts (env : Env) (apiKey : String) (w0 : World)
    (addresses : List String) : BatchResult :=
  match addContractsAux env apiKey w0 addresses with
  | (w, s, f, ids) =>
    { success := s, fail := f, contractIds := ids,
      dispatched := if ids.isEmpty then [] else [ids], world := w }

/-- Shorthand: a single-variable state declaration sub-node. -/
def svd (n : String) (t : SolType) (c : Bool) : SubNode :=
  .stateVariableDeclaration ⟨[⟨n, t, c⟩]⟩

/-- `contract C { uint8 a; uint8 b; }` -/
def docTwoUint8 : SourceDoc :=
  ⟨[.contractDefinition ⟨[svd "a" (.elementary "uint8") false,
                          svd "b" (.elementary "uint8") false]⟩]⟩

/-- `contract C { uint8 constant a = ...; uint8 b; }` -/
def docConstThenVar : SourceDoc :=
  ⟨[.contractDefinition ⟨[svd "a" (.elementary "uint8") true,
                          svd "b" (.elementary "uint8") false]⟩]⟩

/-- `contract C1 { uint256 v1; } contract C2 { uint256 v2; }` -/
def docTwoContracts : SourceDoc :=
  ⟨[.contractDefinition ⟨[svd "v1" (.elementary "uint256") false]⟩,
    .contractDefinition ⟨[svd "v2" (.elementary "uint256") false]⟩]⟩

/-- A self-referential struct: `struct Foo { Foo f; }`. -/
def fooSelf : StructDefinition := ⟨"Foo", [("f", .userDefined "Foo")]⟩

/-- `contract C { struct Foo { Foo f; } }` — cyclic struct, no state variables. -/
def docCycleNoVars : SourceDoc :=
  ⟨[.contractDefinition ⟨[.structDefinition fooSelf]⟩]⟩

/-- `contract C { struct Foo { Foo f; } Foo x; }` — cyclic struct with a
state variable of its type. -/
def docCycleWithVar : SourceDoc :=
  ⟨[.contractDefinition ⟨[.structDefinition fooSelf,
                          svd "x" (.userDefined "Foo") false]⟩]⟩

/-! ### Helper lemmas about the resolver -/

/-- `mapStates` numbers its output records consecutively from `k` and
produces one record per declaration. -/
theorem mapStates_ok_slots (structs : List StructDefinition) :
    ∀ (states : List StateVariableDeclaration) (k : Nat) (l : List State),
      mapStates structs k states = .ok l →
      l.length = states.length ∧ l.map State.slot = List.range' k states.length := by
  intro states
  induction states with
  | nil =>
    intro k l h
    simp only [mapStates] at h
    cases h
    simp
  | cons item rest ih =>
    intro k l h
    simp only [mapStates] at h
    split at h
    · exact absurd h (by simp)
    · split at h
      · exact absurd h (by simp)
      · rename_i tail htail
        cases h
        obtain ⟨hlen, hslots⟩ := ih (k + 1) tail htail
        refine ⟨by simp [hlen], ?_⟩
        simp [hslots, hlen, List.range'_succ]

/-- For a document whose only top-level child is one contract definition,
a successful resolution is exactly that contract's resolution. -/
theorem getStates_single (doc : SourceDoc) (c : ContractDefinition)
    (l : List State) (hc : doc.children = [ASTNode.contractDefinition c])
    (h : getStatesFromSourceCode doc = .ok l) : resolveContract c = .ok l := by
  unfold getStatesFromSourceCode at h
  rw [hc] at h
  simp only [List.filterMap, contractDefOf, getStatesAux] at h
  split at h
  · exact absurd h (by simp)
  · rename_i m hm
    cases h
    simpa using hm

/-! ### C1 — packing of sequential elementary declarations -/

/-- C1 (counterexample): two sequential `uint8` declarations have widths
1 + 1 ≤ 32, so the claim places both in the same slot (offsets 0 and 1).
The resolver instead emits slot 0 and slot 1 — the two records do not share
a slot, and no byte offset is emitted at all. -/
theorem c1_packing_counterexample :
    getStatesFromSourceCode docTwoUint8 =
      .ok [⟨0, "uint8", some "a"⟩, ⟨1, "uint8", some "b"⟩] ∧
    (State.mk 0 "uint8" (some "a")).slot ≠ (State.mk 1 "uint8" (some "b")).slot :=
  ⟨by rfl, by decide⟩

/-- C1 (amended): the resolver assigns each state variable of a contract
the slot equal to its declaration index — sequential declarations occupy
consecutive slots `i` and `i + 1` regardless of their types' byte widths,
and no byte offsets are produced: for a single-contract document the slot
column of a successful resolution is exactly `0, 1, 2, ...`. -/
theorem c1_consecutive_slots (doc : SourceDoc) (c : ContractDefinition)
    (l : List State) (hc : doc.children = [ASTNode.contractDefinition c])
    (h : getStatesFromSourceCode doc = .ok l) :
    l.map State.slot = List.range l.length := by
  have hr := getStates_single doc c l hc h
  unfold resolveContract at hr
  obtain ⟨hlen, hslots⟩ := mapStates_ok_slots _ _ _ _ hr
  rw [hslots, List.range_eq_range', hlen]

/-- C1 witness: the amended theorem applied to `contract C { uint8 a; uint8 b; }`. -/
theorem c1_consecutive_slots_witness :
    ([⟨0, "uint8", some "a"⟩, ⟨1, "uint8", some "b"⟩] : List State).map State.slot =
      List.range 2 :=
  c1_consecutive_slots docTwoUint8
    ⟨[svd "a" (.elementary "uint8") false, svd "b" (.elementary "uint8") false]⟩
    [⟨0, "uint8", some "a"⟩, ⟨1, "uint8", some "b"⟩] rfl (by rfl)

/-! ### C2 — constant/immutable declarations -/

/-- Clear the `constant` marker of a declared variable. -/
def eraseConstVar (v : VarDecl) : VarDecl := ⟨v.name, v.typeName, false⟩

/-- Clear the `constant` markers inside one sub-node. -/
def eraseConstSub : SubNode → SubNode
  | .stateVariableDeclaration d => .stateVariableDeclaration ⟨d.vars.map eraseConstVar⟩
  | x => x

/-- Clear every `constant` marker of a document. -/
def eraseConst (doc : SourceDoc) : SourceDoc :=
  ⟨doc.children.map (fun n =>
    match n with
    | .contractDefinition c => .contractDefinition ⟨c.subNodes.map eraseConstSub⟩
    | x => x)⟩

/-- Total number of state variable declarations of a document (constants
included). -/
def stateDeclCount (doc : SourceDoc) : Nat :=
  ((doc.children.filterMap contractDefOf).map
    (fun c => (c.subNodes.filterMap stateVarOf).length)).sum

theorem filterMap_structOf_eraseConst (ns : List SubNode) :
    (ns.map eraseConstSub).filterMap structOf = ns.filterMap structOf := by
  induction ns with
  | nil => rfl
  | cons n ns ih => cases n <;> simp [eraseConstSub, structOf, ih]

theorem filterMap_stateVarOf_eraseConst (ns : List SubNode) :
    (ns.map eraseConstSub).filterMap stateVarOf =
      (ns.filterMap stateVarOf).map (fun d => ⟨d.vars.map eraseConstVar⟩) := by
  induction ns with
  | nil => rfl
  | cons n ns ih => cases n <;> simp [eraseConstSub, stateVarOf, ih]

theorem mapStates_eraseConst (structs : List StructDefinition) :
    ∀ (states : List StateVariableDeclaration) (k : Nat),
      mapStates structs k (states.map (fun d => ⟨d.vars.map eraseConstVar⟩)) =
        mapStates structs k states := by
  intro states
  induction states with
  | nil => intro k; rfl
  | cons item rest ih =>
    intro k
    have hname : ((item.vars.map eraseConstVar).head?).map VarDecl.name =
        (item.vars.head?).map VarDecl.name := by
      cases item.vars <;> rfl
    have htype : ((item.vars.map eraseConstVar).head?).map VarDecl.typeName =
        (item.vars.head?).map VarDecl.typeName := by
      cases item.vars <;> rfl
    simp only [List.map_cons, mapStates, hname, htype, ih]

theorem filterMap_contractDefOf_eraseConst (ns : List ASTNode) :
    (ns.map (fun n =>
      match n with
      | ASTNode.contractDefinition c => ASTNode.contractDefinition ⟨c.subNodes.map eraseConstSub⟩
      | x => x)).filterMap contractDefOf =
      (ns.filterMap contractDefOf).map (fun c => ⟨c.subNodes.map eraseConstSub⟩) := by
  induction ns with
  | nil => rfl
  | cons n ns ih => cases n <;> simp [contractDefOf, ih]

theorem resolveContract_eraseConst (c : ContractDefinition) :
    resolveContract ⟨c.subNodes.map eraseConstSub⟩ = resolveContract c := by
  unfold resolveContract
  simp only [filterMap_structOf_eraseConst, filterMap_stateVarOf_eraseConst,
    mapStates_eraseConst]

theorem getStatesAux_ok_length :
    ∀ (cs : List ContractDefinition) (l : List State), getStatesAux cs = .ok l →
      l.length = (cs.map (fun c => (c.subNodes.filterMap stateVarOf).length)).sum := by
  intro cs
  induction cs with
  | nil =>
    intro l h
    simp only [getStatesAux] at h
    cases h
    rfl
  | cons c cs ih =>
    intro l h
    simp only [getStatesAux] at h
    split at h
    · exact absurd h (by simp)
    · rename_i m hm
      split at h
      · exact absurd h (by simp)
      · rename_i rest hrest
        cases h
        have h1 := (mapStates_ok_slots _ _ _ _ hm).1
        have h2 := ih rest hrest
        simp [h1, h2]

/-- C2 (counterexample): in `contract C { uint8 constant a; uint8 b; }` the
claim emits no record for `a` and allocates `b` as if `a` were absent (one
record, for `b`, at slot 0). The resolver instead emits a record for the
constant `a` at slot 0, and `b` at slot 1. -/
theorem c2_constant_counterexample :
    getStatesFromSourceCode docConstThenVar =
      .ok [⟨0, "uint8", some "a"⟩, ⟨1, "uint8", some "b"⟩] ∧
    getStatesFromSourceCode docConstThenVar ≠ .ok [⟨0, "uint8", some "b"⟩] := by
  have heval : getStatesFromSourceCode docConstThenVar =
      .ok [⟨0, "uint8", some "a"⟩, ⟨1, "uint8", some "b"⟩] := by rfl
  refine ⟨heval, ?_⟩
  intro h
  rw [heval] at h
  simp at h

/-- C2 (amended): the resolver does not skip `constant`/`immutable`
declarations; the `isDeclaredConst` marker is ignored entirely (clearing
every marker leaves the output unchanged), and every state variable
declaration — constant or not — produces exactly one slot record. -/
theorem c2_const_marker_ignored (doc : SourceDoc) :
    getStatesFromSourceCode (eraseConst doc) = getStatesFromSourceCode doc ∧
    ∀ l, getStatesFromSourceCode doc = .ok l → l.length = stateDeclCount doc := by
  constructor
  · unfold getStatesFromSourceCode eraseConst
    simp only [filterMap_contractDefOf_eraseConst]
    generalize doc.children.filterMap contractDefOf = cs
    induction cs with
    | nil => rfl
    | cons c cs ih =>
      simp only [List.map_cons, getStatesAux, resolveContract_eraseConst, ih]
  · intro l h
    unfold getStatesFromSourceCode at h
    unfold stateDeclCount
    exact getStatesAux_ok_length _ _ h

/-- C2 witness: the amended theorem applied to
`contract C { uint8 constant a; uint8 b; }`. -/
theorem c2_const_marker_ignored_witness :
    getStatesFromSourceCode (eraseConst docConstThenVar) =
      getStatesFromSourceCode docConstThenVar ∧
    ([⟨0, "uint8", some "a"⟩, ⟨1, "uint8", some "b"⟩] : List State).length =
      stateDeclCount docConstThenVar :=
  ⟨(c2_const_marker_ignored docConstThenVar).1,
   (c2_const_marker_ignored docConstThenVar).2 _ (by rfl)⟩

/-! ### C3 — overlap of assignments -/

/-- C3 (counterexample): for a document with two contract definitions, slot
numbering restarts at 0 for each contract and the concatenated output list
contains two distinct 32-byte (`uint256`) assignments on the same slot with
no legal packing — the no-overlap claim fails on the output list as a whole. -/
theorem c3_overlap_counterexample :
    getStatesFromSourceCode docTwoContracts =
      .ok [⟨0, "uint256", some "v1"⟩, ⟨0, "uint256", some "v2"⟩] ∧
    ¬ (([⟨0, "uint256", some "v1"⟩, ⟨0, "uint256", some "v2"⟩] : List State).map
        State.slot).Nodup :=
  ⟨by rfl, by decide⟩

/-- C3 (amended): within a single contract definition no two distinct
assignments share a slot — the slot column of a successful single-contract
resolution is duplicate-free (records carry no offsets, so distinct slots
mean disjoint bytes); across contract definitions of one document slot
numbers restart and may repeat. -/
theorem c3_distinct_slots_within_contract (doc : SourceDoc)
    (c : ContractDefinition) (l : List State)
    (hc : doc.children = [ASTNode.contractDefinition c])
    (h : getStatesFromSourceCode doc = .ok l) :
    (l.map State.slot).Nodup := by
  have hr := getStates_single doc c l hc h
  unfold resolveContract at hr
  obtain ⟨hlen, hslots⟩ := mapStates_ok_slots _ _ _ _ hr
  rw [hslots]
  exact List.nodup_range' _ _

/-- C3 witness: the amended theorem applied to `contract C { uint8 a; uint8 b; }`. -/
theorem c3_distinct_slots_witness :
    (([⟨0, "uint8", some "a"⟩, ⟨1, "uint8", some "b"⟩] : List State).map
      State.slot).Nodup :=
  c3_distinct_slots_within_contract docTwoUint8
    ⟨[svd "a" (.elementary "uint8") false, svd "b" (.elementary "uint8") false]⟩
    [⟨0, "uint8", some "a"⟩, ⟨1, "uint8", some "b"⟩] rfl (by rfl)

/-! ### C4 — determinism of the resolver -/

/-- C4: the resolver is a pure function of the parsed document — two
successful runs on the same input produce identical lists, record for
record (same order; equal slot, signature and variable name throughout). -/
theorem c4_resolver_deterministic (doc : SourceDoc) (l₁ l₂ : List State)
    (h₁ : getStatesFromSourceCode doc = .ok l₁)
    (h₂ : getStatesFromSourceCode doc = .ok l₂) :
    l₁ = l₂ ∧ l₁.map State.slot = l₂.map State.slot ∧
    l₁.map State.type = l₂.map State.type ∧
    l₁.map State.vname = l₂.map State.vname := by
  have h : l₁ = l₂ := Except.ok.inj (h₁.symm.trans h₂)
  subst h
  exact ⟨rfl, rfl, rfl, rfl⟩

/-- C4 witness: two runs on `contract C { uint8 a; uint8 b; }`. -/
theorem c4_resolver_deterministic_witness :
    getStatesFromSourceCode docTwoUint8 =
      .ok [⟨0, "uint8", some "a"⟩, ⟨1, "uint8", some "b"⟩] ∧
    ([⟨0, "uint8", some "a"⟩, ⟨1, "uint8", some "b"⟩] : List State) =
      [⟨0, "uint8", some "a"⟩, ⟨1, "uint8", some "b"⟩] :=
  ⟨by rfl, (c4_resolver_deterministic docTwoUint8 _ _ (by rfl) (by rfl)).1⟩

/-! ### C5 — rejection of cyclic structs -/

/-- A contract whose struct catalog is cyclic and which declares at least
one state variable resolves to the `CyclicStruct` error (the signature
builder's catalog pre-check fires on the first declaration). -/
theorem resolveContract_cyclic (c : ContractDefinition)
    (hcyc : cyclicCatalog (c.subNodes.filterMap structOf) = true)
    (hvar : c.subNodes.filterMap stateVarOf ≠ []) :
    resolveContract c = .error ResolveError.cyclicStruct := by
  unfold resolveContract
  cases hs : c.subNodes.filterMap stateVarOf with
  | nil => exact absurd hs hvar
  | cons item rest => simp [mapStates, structureToSignatureType, hcyc]

/-- If some contract of the list resolves to an error, the concatenating
loop never returns a list. -/
theorem getStatesAux_mem_error (cs : List ContractDefinition)
    (c : ContractDefinition) (hmem : c ∈ cs)
    (herr : resolveContract c = .error ResolveError.cyclicStruct) :
    ∀ l, getStatesAux cs ≠ .ok l := by
  induction cs with
  | nil => simp at hmem
  | cons c' cs ih =>
    intro l h
    simp only [getStatesAux] at h
    split at h
    · exact absurd h (by simp)
    · rename_i m hm
      split at h
      · exact absurd h (by simp)
      · rename_i rest hrest
        rcases List.mem_cons.mp hmem with hceq | hmem'
        · rw [← hceq, herr] at hm
          exact absurd hm (by simp)
        · exact (ih hmem' rest) hrest

/-- C5 (amended): if some contract definition of the document has a cyclic
struct catalog and declares at least one state variable, resolution never
produces an assignment list; and when that contract is the only top-level
child, the reported error is exactly `CyclicStruct`. (A cyclic struct in a
contract with no state variables is never examined — see the
counterexample.) -/
theorem c5_cycle_rejected (doc : SourceDoc) (c : ContractDefinition)
    (hc : ASTNode.contractDefinition c ∈ doc.children)
    (hcyc : cyclicCatalog (c.subNodes.filterMap structOf) = true)
    (hvar : c.subNodes.filterMap stateVarOf ≠ []) :
    (∀ l, getStatesFromSourceCode doc ≠ .ok l) ∧
    (doc.children = [ASTNode.contractDefinition c] →
      getStatesFromSourceCode doc = .error ResolveError.cyclicStruct) := by
  have herr := resolveContract_cyclic c hcyc hvar
  constructor
  · intro l
    unfold getStatesFromSourceCode
    exact getStatesAux_mem_error _ c (List.mem_filterMap.mpr ⟨_, hc, rfl⟩) herr l
  · intro hsingle
    unfold getStatesFromSourceCode
    rw [hsingle]
    simp [contractDefOf, getStatesAux, herr]

/-- C5 (counterexample): `contract C { struct Foo { Foo f; } }` contains a
struct that contains itself, yet resolution succeeds (with the empty list)
instead of failing with `CyclicStruct`, because the signature builder only
runs per declared state variable and the contract declares none. -/
theorem c5_cycle_counterexample :
    getStatesFromSourceCode docCycleNoVars = .ok [] ∧
    cyclicStructB [fooSelf] fooSelf = true ∧
    cyclicCatalog [fooSelf] = true :=
  ⟨by rfl, by rfl, by rfl⟩

/-- C5 witness: the amended theorem applied to
`contract C { struct Foo { Foo f; } Foo x; }`. -/
theorem c5_cycle_rejected_witness :
    getStatesFromSourceCode docCycleWithVar = .error ResolveError.cyclicStruct :=
  (c5_cycle_rejected docCycleWithVar
    ⟨[.structDefinition fooSelf, svd "x" (.userDefined "Foo") false]⟩
    (by simp [docCycleWithVar]) (by rfl) (by simp [stateVarOf, svd])).2 rfl

/-! ### C6 — batch resilience of the onboarding loop -/

/-- The per-address loop partitions its input: when per-address failure is
decided by a predicate on the address alone, `success` and `fail` are the
two filters of the input list, and their lengths sum to the input length. -/
theorem addContractsAux_partition (env : Env) (apiKey : String)
    (failsP : String → Bool)
    (henv : ∀ w a, ((processAddress env apiKey w a).2 = none) ↔ failsP a = true) :
    ∀ (addresses : List String) (w : World),
      (addContractsAux env apiKey w addresses).2.1 =
        addresses.filter (fun a => !failsP a) ∧
      (addContractsAux env apiKey w addresses).2.2.1 = addresses.filter failsP ∧
      (addContractsAux env apiKey w addresses).2.1.length +
        (addContractsAux env apiKey w addresses).2.2.1.length = addresses.length := by
  intro addresses
  induction addresses with
  | nil => intro w; exact ⟨rfl, rfl, rfl⟩
  | cons a rest ih =>
    intro w
    rcases hp : processAddress env apiKey w a with ⟨w', r⟩
    rcases haux : addContractsAux env apiKey w' rest with ⟨w'', s, f, ids⟩
    obtain ⟨h1, h2, h3⟩ := ih w'
    rw [haux] at h1 h2 h3
    simp only at h1 h2 h3
    cases r with
    | none =>
      have hf : failsP a = true := (henv w a).mp (by rw [hp])
      refine ⟨?_, ?_, ?_⟩
      · simp [addContractsAux, hp, haux, List.filter_cons, hf, h1]
      · simp [addContractsAux, hp, haux, List.filter_cons, hf, h2]
      · simp only [addContractsAux, hp, haux, List.length_cons]
        omega
    | some cid =>
      have hne : ¬ ((processAddress env apiKey w a).2 = none) := by rw [hp]; simp
      have hf : failsP a = false := by
        cases h : failsP a
        · rfl
        · exact absurd ((henv w a).mpr h) hne
      refine ⟨?_, ?_, ?_⟩
      · simp [addContractsAux, hp, haux, List.filter_cons, hf, h1]
      · simp [addContractsAux, hp, haux, List.filter_cons, hf, h2]
      · simp only [addContractsAux, hp, haux, List.length_cons]
        omega

/-- C6: the batch operation is total (it is a function) and partitions its
input: when an address's failure is determined by the address (the external
collaborators' outcome per address does not depend on the accumulated store
state), `success` and `fail` are exactly the non-failing and failing
filters of the input, every input address lands in exactly one of the two,
and with exactly one failing address `fail` has 1 entry and `success` has
N − 1. -/
theorem c6_batch_partition (env : Env) (apiKey : String) (w0 : World)
    (addresses : List String) (failsP : String → Bool)
    (henv : ∀ w a, ((processAddress env apiKey w a).2 = none) ↔ failsP a = true) :
    (addContracts env apiKey w0 addresses).success =
      addresses.filter (fun a => !failsP a) ∧
    (addContracts env apiKey w0 addresses).fail = addresses.filter failsP ∧
    (addContracts env apiKey w0 addresses).success.length +
      (addContracts env apiKey w0 addresses).fail.length = addresses.length ∧
    (addresses.countP failsP = 1 →
      (addContracts env apiKey w0 addresses).fail.length = 1 ∧
      (addContracts env apiKey w0 addresses).success.length =
        addresses.length - 1) := by
  obtain ⟨h1, h2, h3⟩ := addContractsAux_partition env apiKey failsP henv addresses w0
  rcases haux : addContractsAux env apiKey w0 addresses with ⟨w, s, f, ids⟩
  rw [haux] at h1 h2 h3
  simp only at h1 h2 h3
  have hs : (addContracts env apiKey w0 addresses).success = s := by
    simp [addContracts, haux]
  have hf : (addContracts env apiKey w0 addresses).fail = f := by
    simp [addContracts, haux]
  refine ⟨hs.trans h1, hf.trans h2, by rw [hs, hf]; exact h3, ?_⟩
  intro hcount
  have hcp : addresses.countP failsP = (addresses.filter failsP).length :=
    List.countP_eq_length_filter _ _
  have hflen : f.length = 1 := by rw [h2, ← hcp]; exact hcount
  constructor
  · rw [hf]; exact hflen
  · rw [hs]; omega

/-! ### C7 — single dispatch of the backfill service -/

/-- The loop pushes one contract id per success, so the id list and the
success list always have equal length. -/
theorem addContractsAux_ids_length (env : Env) (apiKey : String) :
    ∀ (addresses : List String) (w : World),
      (addContractsAux env apiKey w addresses).2.2.2.length =
        (addContractsAux env apiKey w addresses).2.1.length := by
  intro addresses
  induction addresses with
  | nil => intro w; rfl
  | cons a rest ih =>
    intro w
    rcases hp : processAddress env apiKey w a with ⟨w', r⟩
    rcases haux : addContractsAux env apiKey w' rest with ⟨w'', s, f, ids⟩
    have hlen := ih w'
    rw [haux] at hlen
    simp only at hlen
    cases r <;> simp [addContractsAux, hp, haux, hlen]

/-- C7: the backfill dispatcher is invoked exactly once, with the full
accepted contract id list (one id per accepted address, in order), if and
only if at least one address was accepted; with no accepted address it is
not invoked at all. -/
theorem c7_dispatch_once_iff_accepted (env : Env) (apiKey : String)
    (w0 : World) (addresses : List String) :
    (addContracts env apiKey w0 addresses).contractIds.length =
      (addContracts env apiKey w0 addresses).success.length ∧
    ((addContracts env apiKey w0 addresses).success ≠ [] →
      (addContracts env apiKey w0 addresses).dispatched =
        [(addContracts env apiKey w0 addresses).contractIds]) ∧
    ((addContracts env apiKey w0 addresses).success = [] →
      (addContracts env apiKey w0 addresses).dispatched = []) := by
  rcases haux : addContractsAux env apiKey w0 addresses with ⟨w, s, f, ids⟩
  have hlen := addContractsAux_ids_length env apiKey addresses w0
  rw [haux] at hlen
  simp only at hlen
  refine ⟨by simp [addContracts, haux, hlen], ?_, ?_⟩
  · intro hne
    rw [show (addContracts env apiKey w0 addresses).success = s by
      simp [addContracts, haux]] at hne
    have hids : ids ≠ [] := by
      intro h0
      rw [h0] at hlen
      exact hne (List.eq_nil_of_length_eq_zero hlen.symm)
    simp [addContracts, haux, hids]
  · intro he
    rw [show (addContracts env apiKey w0 addresses).success = s by
      simp [addContracts, haux]] at he
    have hids : ids = [] := by
      apply List.eq_nil_of_length_eq_zero
      rw [hlen, he]
      rfl
    simp [addContracts, haux, hids]

/-- A document with no top-level nodes (resolves to the empty list). -/
def emptyDoc : SourceDoc := ⟨[]⟩

/-- Etherscan payload used by the sample environment: no ABI, empty source. -/
def sampleData : EtherscanData := ⟨"Token", none, emptyDoc⟩

/-- Sample environment: fetching `"0xbad"` fails, everything else succeeds;
the repositories append and hand out list-length ids. -/
def envBadFetch : Env :=
  ⟨fun _ a => if a == "0xbad" then .error "fetch failed" else .ok sampleData,
   fun _ _ => .ok 100,
   fun reg n => .ok (reg ++ [(reg.length, n)], reg.length),
   fun store rec => .ok (store ++ [rec], store.length)⟩

/-- In `envBadFetch`, failure is decided by the address alone. -/
def failsBad (a : String) : Bool := a == "0xbad"

theorem envBadFetch_fails_iff (apiKey : String) :
    ∀ (w : World) (a : String),
      ((processAddress envBadFetch apiKey w a).2 = none) ↔ failsBad a = true := by
  intro w a
  by_cases h : a = "0xbad"
  · subst h
    simp [processAddress, envBadFetch, failsBad]
  · simp [processAddress, envBadFetch, failsBad, h, sampleData,
      getStatesFromSourceCode, getStatesAux, emptyDoc, getEventsFromABI,
      addEventsLoop]

/-- C6 witness: three addresses of which exactly the second fails fetch —
2 successes, 1 failure. -/
theorem c6_batch_partition_witness :
    (addContracts envBadFetch "key" ⟨[], []⟩ ["0x1", "0xbad", "0x2"]).success =
      ["0x1", "0x2"] ∧
    (addContracts envBadFetch "key" ⟨[], []⟩ ["0x1", "0xbad", "0x2"]).fail =
      ["0xbad"] ∧
    (addContracts envBadFetch "key" ⟨[], []⟩ ["0x1", "0xbad", "0x2"]).fail.length = 1 ∧
    (addContracts envBadFetch "key" ⟨[], []⟩ ["0x1", "0xbad", "0x2"]).success.length =
      3 - 1 := by
  have h := c6_batch_partition envBadFetch "key" ⟨[], []⟩ ["0x1", "0xbad", "0x2"]
    failsBad (envBadFetch_fails_iff "key")
  have hcount : (["0x1", "0xbad", "0x2"] : List String).countP failsBad = 1 := by rfl
  obtain ⟨h1, h2, _, h4⟩ := h
  exact ⟨h1.trans (by rfl), h2.trans (by rfl), (h4 hcount).1, (h4 hcount).2⟩

/-- C7 witness: two accepted addresses — the dispatcher is invoked exactly
once with both contract ids, in order. -/
theorem c7_dispatch_witness :
    (addContracts envBadFetch "key" ⟨[], []⟩ ["0x1", "0x2"]).dispatched = [[0, 1]] ∧
    (addContracts envBadFetch "key" ⟨[], []⟩ ["0xbad"]).dispatched = [] := by
  constructor
  · have h := (c7_dispatch_once_iff_accepted envBadFetch "key" ⟨[], []⟩
      ["0x1", "0x2"]).2.1 (by decide)
    exact h.trans (by decide)
  · have h := (c7_dispatch_once_iff_accepted envBadFetch "key" ⟨[], []⟩
      ["0xbad"]).2.2 (by decide)
    exact h

/-! ### C8 — event extraction from the ABI -/

/-- C8: event extraction returns exactly the names of the entries of kind
`"event"`, in ABI order, duplicates preserved (the `filterMap` form makes
this explicit), and a missing (`none`) or empty ABI yields the empty list
rather than an error. -/
theorem c8_events_extraction :
    getEventsFromABI none = [] ∧
    getEventsFromABI (some []) = [] ∧
    ∀ entries : List ABIEntry,
      getEventsFromABI (some entries) =
        entries.filterMap
          (fun e => if e.type = "event" then some e.name else none) := by
  refine ⟨rfl, rfl, ?_⟩
  intro entries
  induction entries with
  | nil => rfl
  | cons e es ih =>
    simp only [getEventsFromABI] at ih ⊢
    rw [List.filter_cons, List.filterMap_cons]
    by_cases h : e.type = "event"
    · simp [h, ih]
    · simp [h, ih]

/-! ### C9 — backfill close handler -/

/-- C9: the future returned by the backfill dispatcher resolves exactly
when the child process closes with exit status 0, and rejects carrying the
exit status for every non-zero status. -/
theorem c9_backfill_close_outcome (code : Int) :
    (code = 0 → closeOutcome (some code) = .ok (some code)) ∧
    (code ≠ 0 → closeOutcome (some code) = .error (some code)) := by
  constructor
  · intro h
    subst h
    rfl
  · intro h
    simp [closeOutcome, h]

/-- C9 witness: exit status 0 resolves; exit status 2 rejects carrying 2. -/
theorem c9_backfill_close_outcome_witness :
    closeOutcome (some 0) = .ok (some 0) ∧
    closeOutcome (some 2) = .error (some 2) :=
  ⟨(c9_backfill_close_outcome 0).1 rfl, (c9_backfill_close_outcome 2).2 (by decide)⟩

/-! ### C10 — event rows are not rolled back on contract persistence failure -/

/-- C10: onboarding one address is not atomic with respect to the event
registry: when every stage up to and including the event-insert loop
succeeds (creating one or more registry rows, `reg'` with ids `ids`) and
persisting the contract record then throws, the address is reported in
`fail`, yet the batch's final registry state is exactly `reg'` — the rows
created for the failed address are not rolled back. -/
theorem c10_events_not_rolled_back (env : Env) (apiKey a : String) (w : World)
    (data : EtherscanData) (sb : Nat) (sts : List State)
    (reg' : List (Nat × String)) (ids : List Nat) (err : String)
    (h1 : env.fetchData apiKey a = .ok data)
    (h2 : env.fetchBlock apiKey a = .ok sb)
    (h3 : getStatesFromSourceCode data.sourceCode = .ok sts)
    (h4 : addEventsLoop env w.events (getEventsFromABI data.abi) = (reg', .ok ids))
    (hids : ids ≠ [])
    (h5 : env.addContract w.contracts
      ⟨a, sb, data.name, data.abi, ids⟩ = .error err) :
    processAddress env apiKey w a = (⟨reg', w.contracts⟩, none) ∧
    (addContracts env apiKey w [a]).fail = [a] ∧
    (addContracts env apiKey w [a]).success = [] ∧
    (addContracts env apiKey w [a]).world.events = reg' := by
  have hp : processAddress env apiKey w a = (⟨reg', w.contracts⟩, none) := by
    simp [processAddress, h1, h2, h3, h4, h5]
  refine ⟨hp, ?_, ?_, ?_⟩ <;>
    simp [addContracts, addContractsAux, hp]

/-- Environment for the C10 witness: fetch succeeds with a one-event ABI,
the event repository appends, persisting the contract record throws. -/
def envDbDown : Env :=
  ⟨fun _ _ => .ok ⟨"Tok", some [⟨"event", "E"⟩], emptyDoc⟩,
   fun _ _ => .ok 5,
   fun reg n => .ok (reg ++ [(reg.length, n)], reg.length),
   fun _ _ => .error "db down"⟩

/-- C10 witness: one address, one event row created, contract persistence
throws — the address fails but the row `(0, "E")` stays in the registry. -/
theorem c10_events_not_rolled_back_witness :
    (addContracts envDbDown "k" ⟨[], []⟩ ["0xa"]).fail = ["0xa"] ∧
    (addContracts envDbDown "k" ⟨[], []⟩ ["0xa"]).world.events = [(0, "E")] := by
  have h := c10_events_not_rolled_back envDbDown "k" "0xa" ⟨[], []⟩
    ⟨"Tok", some [⟨"event", "E"⟩], emptyDoc⟩ 5 [] [(0, "E")] [0] "db down"
    rfl rfl (by rfl) (by rfl) (by decide) rfl
  exact ⟨h.2.1, h.2.2.2⟩

end EthWatcher
